import Mathlib

/-!
Verification of the OGC capabilities acquisition pipeline of `main.py`
(WMS/WFS/WCS capabilities fetching, parsing, sorting and caching).

The Python source is shallowly embedded:
* strings are Lean `String`s; every Python string primitive used by the code
  (`strip`, `lower`, slicing, `split`) is re-implemented over `String.data`
  so that all definitions evaluate by kernel reduction;
* XML element trees (`xml.etree.ElementTree`) are modelled by the mutually
  inductive `Xml`/`XmlList` type below; the byte-level XML parser itself is
  external to the source and is modelled as an injected oracle
  `fetch : String → Except String Xml` that, per capabilities URL, either
  fails (network error, non-2xx status, oversized payload or malformed
  document — all of which the source surfaces as exceptions caught by the
  per-version `try`) or yields the parsed element tree;
* Python exceptions become `Except String` with the exception's message;
* `float(...)` is modelled over `Rat` for plain decimal notation (no claim
  under verification depends on numeric values of bounding boxes);
* percent-decoding inside `parse_qsl`/`urlencode` is not modelled (no claim
  depends on it); `urlsplit` is modelled for well-formed URLs, with the
  scheme lowercased exactly as CPython's `urlsplit` normalises it;
* `functools.lru_cache(maxsize=64)` is modelled as an explicit
  most-recently-used-first association list capped at 64 entries, and
  `time.time()` / `time.perf_counter()` as explicit `now` / `ems` arguments.
-/

namespace OGC

/-! ### Python string primitives -/

/-- Whitespace characters stripped by Python's `str.strip()` (ASCII part). -/
def pySpaceChars : List Char := [' ', '\t', '\n', '\r', '\x0b', '\x0c']

def isPySpace (c : Char) : Bool := pySpaceChars.contains c

/-- Model of Python `str.strip()`. -/
def pyStrip (s : String) : String :=
  ⟨((s.data.dropWhile isPySpace).reverse.dropWhile isPySpace).reverse⟩

def pyLowerChar (c : Char) : Char :=
  if 65 ≤ c.toNat ∧ c.toNat ≤ 90 then Char.ofNat (c.toNat + 32) else c

/-- Model of Python `str.lower()` (ASCII part). -/
def pyLower (s : String) : String := ⟨s.data.map pyLowerChar⟩

/-- Model of Python slicing `s[:n]`. -/
def strTake (s : String) (n : Nat) : String := ⟨s.data.take n⟩

/-- Split a character list at the first occurrence of `ch`, if any. -/
def splitFirstAux (ch : Char) : List Char → Option (List Char × List Char)
  | [] => none
  | c :: cs =>
    if c = ch then some ([], cs)
    else (splitFirstAux ch cs).map (fun p => (c :: p.1, p.2))

/-- Model of Python `s.split(ch, 1)` restricted to the case `ch in s`. -/
def splitFirst (ch : Char) (s : String) : Option (String × String) :=
  (splitFirstAux ch s.data).map (fun p => (⟨p.1⟩, ⟨p.2⟩))

/-- Model of Python `s.split()` (split on whitespace runs, dropping empties). -/
def wsSplitAux : List Char → List Char → List String
  | [], acc => if acc = [] then [] else [⟨acc.reverse⟩]
  | c :: cs, acc =>
    if isPySpace c then
      (if acc = [] then wsSplitAux cs [] else (⟨acc.reverse⟩ : String) :: wsSplitAux cs [])
    else wsSplitAux cs (c :: acc)

def pySplitWs (s : String) : List String := wsSplitAux s.data []

/-- Model of Python truthiness for `str | None` values (`None` and `""` are falsy). -/
def pyTruthy : Option String → Bool
  | none => false
  | some s => s ≠ ""

/-- Model of Python `a or b` on `str | None` values. -/
def pyOr (a b : Option String) : Option String := if pyTruthy a then a else b

/-- Model of Python `a or d` where `a : str | None` and `d : str`. -/
def pyOrStr (a : Option String) (d : String) : String :=
  match a with
  | none => d
  | some s => if s ≠ "" then s else d

/-- Model of Python `str(x)` on `str | None` values. -/
def pyStrOfOpt : Option String → String
  | none => "None"
  | some s => s

/-! ### Python `float(...)` on plain decimal literals -/

def digitsToNat (cs : List Char) : Nat :=
  cs.foldl (fun n c => n * 10 + (c.toNat - 48)) 0

/-- Model of Python `float(s)` restricted to plain decimal notation
`[+-]digits[.digits]`; other inputs (scientific notation, `inf`, …) are
treated as failures.  No claim under verification depends on bounding-box
numbers, only on the success/failure structure of their extraction. -/
def pyFloat? (s : String) : Option Rat :=
  let cs := s.data
  let signed : Bool × List Char :=
    match cs with
    | '+' :: r => (false, r)
    | '-' :: r => (true, r)
    | r => (false, r)
  let body := signed.2
  let val? : Option Rat :=
    match splitFirstAux '.' body with
    | none =>
      if body ≠ [] ∧ body.all Char.isDigit then some (digitsToNat body : Rat) else none
    | some (a, b) =>
      if (a ≠ [] ∨ b ≠ []) ∧ a.all Char.isDigit ∧ b.all Char.isDigit then
        some ((digitsToNat a : Rat) + (digitsToNat b : Rat) / ((10 : Rat) ^ b.length))
      else none
  val?.map (fun v => if signed.1 then -v else v)

/-! ### Lexicographic string comparison (Python `<` on `str`, by code point) -/

def charListLt : List Char → List Char → Bool
  | [], [] => false
  | [], _ :: _ => true
  | _ :: _, [] => false
  | a :: as, b :: bs => a.toNat < b.toNat || (a.toNat == b.toNat && charListLt as bs)

/-- Strict lexicographic comparison of `(prefix, local_name, name)` key
triples, exactly Python's `<` on 3-tuples of strings. -/
def tripLt : List Char × List Char × List Char → List Char × List Char × List Char → Bool
  | (p₁, l₁, n₁), (p₂, l₂, n₂) =>
    charListLt p₁ p₂ ||
      (p₁ == p₂ && (charListLt l₁ l₂ || (l₁ == l₂ && charListLt n₁ n₂)))

/-! ### XML element trees (`xml.etree.ElementTree` model) -/

mutual
/-- One XML element: tag (possibly `\x7bnamespace\x7dLocal`-qualified), attributes,
text content, children. -/
inductive Xml where
  | elem : (tag : String) → (attrs : List (String × String)) → (text : String) →
      (children : XmlList) → Xml
/-- Children of an element (a nested list, kept mutual so that all tree
recursions are structural and evaluate by kernel reduction). -/
inductive XmlList where
  | nil : XmlList
  | cons : Xml → XmlList → XmlList
end

def XmlList.toList : XmlList → List Xml
  | .nil => []
  | .cons x xs => x :: xs.toList

def XmlList.ofList : List Xml → XmlList
  | [] => .nil
  | x :: xs => .cons x (XmlList.ofList xs)

def Xml.tag : Xml → String
  | .elem t _ _ _ => t

def Xml.attrs : Xml → List (String × String)
  | .elem _ a _ _ => a

def Xml.text : Xml → String
  | .elem _ _ s _ => s

def Xml.children : Xml → XmlList
  | .elem _ _ _ cs => cs

def Xml.childList (x : Xml) : List Xml := x.children.toList

/-- Model of `_local`: strip a `\x7bnamespace\x7d` qualifier from a tag
(Python `tag.split("\x7d", 1)[-1] if "\x7d" in tag else tag`). -/
def _local (tag : String) : String :=
  match splitFirst '}' tag with
  | some p => p.2
  | none => tag

/-- Model of `elem.attrib.get(k)`. -/
def attrGet (x : Xml) (k : String) : Option String :=
  (x.attrs.find? (fun p => p.1 = k)).map (·.2)

/-- Model of `elem.attrib.get(k, d)`. -/
def attrGetD (x : Xml) (k : String) (d : String) : String :=
  (attrGet x k).getD d

/-- Model of `_child_text`: the stripped text of the FIRST child whose local
tag matches, `none` when the stripped text is empty or no child matches. -/
def _child_text (x : Xml) (childLocalName : String) : Option String :=
  match x.childList.find? (fun c => _local c.tag = childLocalName) with
  | none => none
  | some c =>
    let t := pyStrip c.text
    if t = "" then none else some t

/-- Model of `_iter_children`: the children whose local tag matches. -/
def _iter_children (x : Xml) (childLocalName : String) : List Xml :=
  x.childList.filter (fun c => _local c.tag = childLocalName)

mutual
/-- Model of `elem.iter()`: the element itself followed by all descendants,
in document (pre-)order. -/
def Xml.iterAll : Xml → List Xml
  | .elem t a s cs => .elem t a s cs :: cs.iterAll
def XmlList.iterAll : XmlList → List Xml
  | .nil => []
  | .cons c cs => c.iterAll ++ cs.iterAll
end

/-- Model of `_find_first`: first element of `elem.iter()` with the given
local tag. -/
def _find_first (x : Xml) (localName : String) : Option Xml :=
  x.iterAll.find? (fun e => _local e.tag = localName)

/-- Model of `_find_all`: all elements of `elem.iter()` with the given local
tag, in document order. -/
def _find_all (x : Xml) (localName : String) : List Xml :=
  x.iterAll.filter (fun e => _local e.tag = localName)

/-- Model of ElementTree element truthiness: an element with no children is
falsy (this is how `_find_first(root, "Capability") or root` behaves). -/
def xmlTruthy (x : Xml) : Bool :=
  match x.children with
  | .nil => false
  | .cons _ _ => true

/-! ### Catalog items -/

/-- Model of `_split_qname`. -/
def _split_qname (name : String) : String × String :=
  if name = "" then ("", "")
  else
    match splitFirst ':' name with
    | some (p, rest) => (p, rest)
    | none => ("", name)

structure WmsStyle where
  name : String
  title : String
deriving DecidableEq, Repr

structure BboxWgs84 where
  minx : Rat
  miny : Rat
  maxx : Rat
  maxy : Rat
  crs : String
deriving DecidableEq, Repr

/-- One normalized catalog item.  The Python code uses per-dialect dicts;
fields a dialect does not set take the defaults the code's `.get(…, d)`
accessors would return (`""` / `[]` / `None`). -/
structure CatalogItem where
  type : String
  name : String
  pfx : String
  local_name : String
  title : String
  abstract : String
  queryable : String := ""
  crs : List String := []
  default_crs : String := ""
  bbox_wgs84 : Option BboxWgs84 := none
  styles : List WmsStyle := []
deriving DecidableEq, Repr

/-! ### WMS parser -/

/-- Model of the corner-pair bounding-box extraction shared by the WMS and
WFS parsers: the first `WGS84BoundingBox` child with both corners present
and parseable as `x y` float pairs. -/
def parseCornerBbox (x : Xml) : Option (Option BboxWgs84) :=
  match (_iter_children x "WGS84BoundingBox").head? with
  | none => none
  | some wgs =>
    match _child_text wgs "LowerCorner", _child_text wgs "UpperCorner" with
    | some lower, some upper =>
      some (match (pySplitWs lower).map pyFloat?, (pySplitWs upper).map pyFloat? with
        | [some lx, some ly], [some ux, some uy] =>
          some { minx := lx, miny := ly, maxx := ux, maxy := uy, crs := "EPSG:4326" }
        | _, _ => none)
    | _, _ => none

/-- Model of the WMS `parse_wgs84_bbox`: corner-pair form first; if a
`WGS84BoundingBox` child exists with both corners, its parse result is final
(success or `None`); otherwise fall through to the first legacy
`LatLonBoundingBox` anywhere below the node. -/
def parse_wgs84_bbox_wms (x : Xml) : Option BboxWgs84 :=
  match parseCornerBbox x with
  | some res => res
  | none =>
    match (x.iterAll.filter (fun e => _local e.tag = "LatLonBoundingBox")).head? with
    | none => none
    | some bb =>
      match pyFloat? (attrGetD bb "minx" ""), pyFloat? (attrGetD bb "miny" ""),
          pyFloat? (attrGetD bb "maxx" ""), pyFloat? (attrGetD bb "maxy" "") with
      | some a, some b, some c, some d =>
        some { minx := a, miny := b, maxx := c, maxy := d, crs := "EPSG:4326" }
      | _, _, _, _ => none

/-- Model of `collect_crs` before deduplication: stripped texts of the
node's own `CRS`/`SRS` children, non-empty ones only, in document order. -/
def rawCrsTexts (x : Xml) : List String :=
  (x.childList.filterMap (fun c =>
    if _local c.tag = "CRS" ∨ _local c.tag = "SRS" then
      let t := pyStrip c.text
      if t = "" then none else some t
    else none))

/-- Model of Python's seen-set deduplication loop (stable, first occurrence
kept), used by `collect_crs` and the WFS output-format collection. -/
def pyDedupAux : List String → List String → List String
  | [], acc => acc
  | v :: vs, acc => if v ∈ acc then pyDedupAux vs acc else pyDedupAux vs (acc ++ [v])

def pyDedup (xs : List String) : List String := pyDedupAux xs []

/-- Model of `collect_crs`. -/
def collect_crs (x : Xml) : List String := pyDedup (rawCrsTexts x)

/-- Model of the `Style` children extraction in `walk`. -/
def stylesOf (x : Xml) : List WmsStyle :=
  (_iter_children x "Style").filterMap (fun s =>
    let sName := pyOrStr (_child_text s "Name") ""
    let sTitle := pyOrStr (_child_text s "Title") ""
    if sName ≠ "" ∨ sTitle ≠ "" then some { name := sName, title := sTitle } else none)

/-- Model of the per-node item emission in `walk` (the `if name:` block),
given the node's computed title and CRS list. -/
def wmsEmit (x : Xml) (title : Option String) (crs : List String) : List CatalogItem :=
  match _child_text x "Name" with
  | none => []
  | some nm =>
    [{ type := "wms_layer", name := nm, pfx := (_split_qname nm).1,
       local_name := (_split_qname nm).2, title := pyOrStr title "",
       abstract := pyOrStr (_child_text x "Abstract") "",
       queryable := pyOrStr (attrGet x "queryable") "",
       crs := crs, bbox_wgs84 := parse_wgs84_bbox_wms x, styles := stylesOf x }]

mutual
/-- Model of the recursive `walk` of the WMS parser: emit the node (when it
has a non-empty `Name`), then recurse into `Layer` children passing the
computed title and CRS list down as inherited context. -/
def walk (x : Xml) (inheritedTitle : Option String) (inheritedCrs : List String) :
    List CatalogItem :=
  match x with
  | .elem t a s cs =>
    let node := Xml.elem t a s cs
    let title := pyOr (_child_text node "Title") inheritedTitle
    let crsHere := collect_crs node
    let crs := if crsHere ≠ [] then crsHere else inheritedCrs
    wmsEmit node title crs ++ walkChildren cs title crs
/-- The `for child_layer in _iter_children(layer_elem, "Layer")` loop. -/
def walkChildren (cs : XmlList) (title : Option String) (crs : List String) :
    List CatalogItem :=
  match cs with
  | .nil => []
  | .cons c rest =>
    (if _local c.tag = "Layer" then walk c title crs else []) ++ walkChildren rest title crs
end

/-- Model of `_parse_wms`. -/
def _parse_wms (root : Xml) : List CatalogItem × Option String :=
  let cap :=
    match _find_first root "Capability" with
    | some c => if xmlTruthy c then c else root
    | none => root
  let topLayer := cap.iterAll.find? (fun e => _local e.tag = "Layer")
  let items :=
    match topLayer with
    | some l => walk l none []
    | none => []
  (items, pyOr (attrGet root "version") (attrGet root "Version"))

/-! ### WFS parser -/

/-- Model of the WFS `parse_wgs84_bbox` (corner-pair form only). -/
def parse_wgs84_bbox_wfs (x : Xml) : Option BboxWgs84 :=
  match parseCornerBbox x with
  | some res => res
  | none => none

/-- Model of the `OperationsMetadata` → `GetFeature` → `outputFormat`
output-format collection of `_parse_wfs`. -/
def wfsOutputFormats (root : Xml) : List String :=
  let raw :=
    match _find_first root "OperationsMetadata" with
    | none => []
    | some ops =>
      (_find_all ops "Operation").flatMap (fun op =>
        if pyLower (pyOrStr (attrGet op "name") "") = "getfeature" then
          (_find_all op "Parameter").flatMap (fun p =>
            if pyLower (pyOrStr (attrGet p "name") "") = "outputformat" then
              (_find_all p "Value").filterMap (fun v =>
                let t := pyStrip v.text
                if t = "" then none else some t)
            else [])
        else [])
  pyDedup raw

/-- Model of `_parse_wfs`. -/
def _parse_wfs (root : Xml) : List CatalogItem × Option String × List String :=
  let version := pyOr (attrGet root "version") (attrGet root "Version")
  let featureTypes :=
    match _find_first root "FeatureTypeList" with
    | none => _find_all root "FeatureType"
    | some ftList => _iter_children ftList "FeatureType"
  let items := featureTypes.filterMap (fun ft =>
    let name := pyOrStr (_child_text ft "Name") ""
    if name ≠ "" then
      some { type := "wfs_featuretype", name := name, pfx := (_split_qname name).1,
             local_name := (_split_qname name).2,
             title := pyOrStr (_child_text ft "Title") "",
             abstract := pyOrStr (_child_text ft "Abstract") "",
             default_crs := pyOrStr (pyOr (_child_text ft "DefaultCRS") (_child_text ft "DefaultSRS")) "",
             bbox_wgs84 := parse_wgs84_bbox_wfs ft }
    else none)
  (items, version, wfsOutputFormats root)

/-! ### WCS parser -/

/-- Model of `_parse_wcs`.  Note the source fills `prefix` with `""` and
`local_name` with the full name, without calling `_split_qname`. -/
def _parse_wcs (root : Xml) : List CatalogItem × Option String × List String :=
  let version := pyOr (attrGet root "version") (attrGet root "Version")
  let items := (_find_all root "CoverageSummary").filterMap (fun cov =>
    let name := pyOrStr (_child_text cov "CoverageId") ""
    if name ≠ "" then
      some { type := "wcs_coverage", name := name, pfx := "", local_name := name,
             title := pyOrStr (_child_text cov "Title") "",
             abstract := "", default_crs := "", bbox_wgs84 := none }
    else none)
  (items, version, [])

/-! ### Sorting (Python `sorted(items, key=...)`) -/

/-- The sort key of `_get_service_data_impl`:
`(x.get("prefix",""), x.get("local_name",""), x.get("name",""))`. -/
def itemKey (x : CatalogItem) : List Char × List Char × List Char :=
  (x.pfx.data, x.local_name.data, x.name.data)

/-- Key comparison used for sorting: `x ≤ y` iff not `key y < key x`.  Python
`sorted` is a stable ascending sort, which coincides with stable insertion
sort under this total preorder. -/
def itemLe (x y : CatalogItem) : Bool := !(tripLt (itemKey y) (itemKey x))

def itemLeP (x y : CatalogItem) : Prop := itemLe x y = true

instance : DecidableRel itemLeP :=
  fun x y => inferInstanceAs (Decidable (itemLe x y = true))

/-- Model of `sorted(items, key=lambda x: (prefix, local_name, name))`. -/
def pySortItems (items : List CatalogItem) : List CatalogItem :=
  List.insertionSort itemLeP items

/-- Boolean check that a list is weakly sorted under `le` (each consecutive
pair related). -/
def chainLeB (le : CatalogItem → CatalogItem → Bool) : List CatalogItem → Bool
  | [] => true
  | [_] => true
  | a :: b :: t => le a b && chainLeB le (b :: t)

/-- Strict key ascent between consecutive items. -/
def itemLt (x y : CatalogItem) : Bool := tripLt (itemKey x) (itemKey y)

/-! ### Endpoint builder (`_build_url`) -/

/-- Parts of a split URL, as returned by `urllib.parse.urlsplit`. -/
structure UrlParts where
  scheme : String
  netloc : String
  path : String
  query : String
  fragment : String
deriving DecidableEq, Repr

def isSchemeChar (c : Char) : Bool :=
  c.isAlpha || c.isDigit || c = '+' || c = '-' || c = '.'

/-- Scheme detection of `urlsplit`: a valid scheme name before the first
`:` is split off and normalised to lowercase, as CPython does. -/
def schemeSplit (body : String) : String × String :=
  match splitFirstAux ':' body.data with
  | some (pre, post) =>
    if pre ≠ [] ∧ (pre.headD 'a').isAlpha ∧ pre.all isSchemeChar then
      (pyLower ⟨pre⟩, (⟨post⟩ : String))
    else ("", body)
  | none => ("", body)

/-- Netloc detection of `urlsplit`: after `//`, up to the next `/` or `?`. -/
def netlocSplit (rest : String) : String × String :=
  match rest.data with
  | '/' :: '/' :: r =>
    ((⟨r.takeWhile (fun c => c ≠ '/' ∧ c ≠ '?')⟩ : String),
     (⟨r.dropWhile (fun c => c ≠ '/' ∧ c ≠ '?')⟩ : String))
  | r => ("", (⟨r⟩ : String))

/-- Model of `urllib.parse.urlsplit` for well-formed URLs. -/
def urlsplitM (url : String) : UrlParts :=
  let bf := (splitFirst '#' url).getD (url, "")
  let sr := schemeSplit bf.1
  let nr := netlocSplit sr.2
  let pq := (splitFirst '?' nr.2).getD (nr.2, "")
  { scheme := sr.1, netloc := nr.1, path := pq.1, query := pq.2, fragment := bf.2 }

/-- Model of `urllib.parse.urlunsplit`. -/
def urlunsplitM (p : UrlParts) : String :=
  (if p.scheme ≠ "" then p.scheme ++ ":" else "") ++
    (if p.netloc ≠ "" then "//" ++ p.netloc else "") ++ p.path ++
    (if p.query ≠ "" then "?" ++ p.query else "") ++
    (if p.fragment ≠ "" then "#" ++ p.fragment else "")

/-- Model of `parse_qsl(query, keep_blank_values=True)` (percent-decoding
not modelled). -/
def parseQsl (query : String) : List (String × String) :=
  (query.data.splitOn '&' |>.filterMap (fun chunk =>
    if chunk = [] then none
    else
      match splitFirstAux '=' chunk with
      | some (k, v) => some ((⟨k⟩ : String), (⟨v⟩ : String))
      | none => some ((⟨chunk⟩ : String), "")))

/-- Insert-or-update preserving insertion order (Python `dict` assignment). -/
def dictUpsert (d : List (String × String)) (k v : String) : List (String × String) :=
  if d.any (fun p => p.1 = k) then
    d.map (fun p => if p.1 = k then (k, v) else p)
  else d ++ [(k, v)]

/-- Model of `urlencode` on the ordered dict (percent-encoding not
modelled). -/
def urlencodeM (q : List (String × String)) : String :=
  String.intercalate "&" (q.map (fun p => p.1 ++ "=" ++ p.2))

/-- Model of `_build_url`: rejects an empty or over-long base URL and any
scheme other than `https`; otherwise folds existing query keys to lowercase,
overlays the updates (which win) and re-serialises. -/
def _build_url (maxUrlLen : Nat) (baseUrl : String) (updates : List (String × String)) :
    Except String String :=
  if baseUrl = "" ∨ baseUrl.length > maxUrlLen then .error "Ungültige Service-URL."
  else
    let parts := urlsplitM baseUrl
    if pyLower parts.scheme ≠ "https" then .error "Nur https:// URLs sind erlaubt."
    else
      let q := (parseQsl parts.query).foldl (fun d p => dictUpsert d (pyLower p.1) p.2) []
      let q := updates.foldl (fun d p => dictUpsert d (pyLower p.1) p.2) q
      .ok (urlunsplitM { parts with query := urlencodeM q })

/-! ### Pipeline (`_get_service_data_impl`) -/

/-- One registry entry of `OGC_SERVICES` (the fields the pipeline reads). -/
structure Svc where
  label : String
  kind : String
  url : String
deriving DecidableEq, Repr

/-- Model of `OGC_SERVICES.get(key)` over an injected registry. -/
def svcGet (services : List (String × Svc)) (key : String) : Option Svc :=
  (services.find? (fun p => p.1 = key)).map (·.2)

structure ServiceMeta where
  key : String
  label : String
  kind : String
  url : String
  capabilities_url : String
  version : Option String
  output_formats : Option (List String)
deriving DecidableEq, Repr

structure Counts where
  items : Nat
  styles : Option Nat
deriving DecidableEq, Repr

/-- Model of the success dict returned by `_get_service_data_impl`. -/
structure ServiceResult where
  service : ServiceMeta
  counts : Counts
  items : List CatalogItem
  fetched_at : Nat
  fetch_ms : Nat
deriving DecidableEq, Repr

def upperKind (kind : String) : String :=
  if kind = "wms" then "WMS"
  else if kind = "wfs" then "WFS"
  else if kind = "wcs" then "WCS"
  else kind

/-- The ordered version-candidate list per service kind (the literal lists
of the three branches of `_get_service_data_impl`; `""` is the unspecified
sentinel that omits the `version` parameter). -/
def versionsFor (kind : String) : List String :=
  if kind = "wms" then ["1.3.0", "1.1.1", ""]
  else if kind = "wfs" then ["2.0.0", "1.1.0", "1.0.0", ""]
  else if kind = "wcs" then ["2.0.1", "2.0.0", "1.0.0", ""]
  else []

/-- The capabilities-request query overrides for one candidate version. -/
def candParams (kind : String) (v : String) : List (String × String) :=
  [("service", upperKind kind), ("request", "GetCapabilities")] ++
    (if v ≠ "" then [("version", v)] else [])

/-- Model of the body of one `try:` block of `_get_service_data_impl`: build
the endpoint, fetch+parse the capabilities document (the injected `fetch`
oracle), run the dialect parser and assemble the result dict.  Any failure
is the exception the `except` clause catches. -/
def attempt (maxUrlLen : Nat) (key : String) (svc : Svc)
    (fetch : String → Except String Xml) (now ems : Nat) (v : String) :
    Except String ServiceResult :=
  match _build_url maxUrlLen svc.url (candParams svc.kind v) with
  | .error e => .error e
  | .ok capUrl =>
    match fetch capUrl with
    | .error e => .error e
    | .ok doc =>
      let version (pv : Option String) : Option String :=
        pyOr pv (if v ≠ "" then some v else none)
      if svc.kind = "wms" then
        let (items, pv) := _parse_wms doc
        .ok { service := { key := key, label := svc.label, kind := svc.kind, url := svc.url,
                           capabilities_url := capUrl, version := version pv,
                           output_formats := none },
              counts := { items := items.length,
                          styles := some ((items.map (fun it => it.styles.length)).sum) },
              items := pySortItems items, fetched_at := now, fetch_ms := ems }
      else if svc.kind = "wfs" then
        let (items, pv, ofs) := _parse_wfs doc
        .ok { service := { key := key, label := svc.label, kind := svc.kind, url := svc.url,
                           capabilities_url := capUrl, version := version pv,
                           output_formats := some ofs },
              counts := { items := items.length, styles := none },
              items := pySortItems items, fetched_at := now, fetch_ms := ems }
      else if svc.kind = "wcs" then
        let (items, pv, ofs) := _parse_wcs doc
        .ok { service := { key := key, label := svc.label, kind := svc.kind, url := svc.url,
                           capabilities_url := capUrl, version := version pv,
                           output_formats := some ofs },
              counts := { items := items.length, styles := none },
              items := pySortItems items, fetched_at := now, fetch_ms := ems }
      else .error "Unbekannter Service-Typ."

/-- The aggregate error message raised after all candidates failed:
`f"(KIND) Capabilities konnten nicht geladen werden: (str(last_err)[:220])"`. -/
def failMsg (kindName : String) (lastErr : Option String) : String :=
  kindName ++ " Capabilities konnten nicht geladen werden: " ++
    strTake (pyStrOfOpt lastErr) 220

/-- Model of the `for v in versions:` loop with its `last_err` threading and
the final `raise`. -/
def negotiate (att : String → Except String ServiceResult) (kindName : String) :
    List String → Option String → Except String ServiceResult
  | [], lastErr => .error (failMsg kindName lastErr)
  | v :: vs, _lastErr =>
    match att v with
    | .ok r => .ok r
    | .error e => negotiate att kindName vs (some e)

/-- Model of `_get_service_data_impl`. -/
def _get_service_data_impl (maxUrlLen : Nat) (services : List (String × Svc)) (key : String)
    (fetch : String → Except String Xml) (now ems : Nat) : Except String ServiceResult :=
  match svcGet services key with
  | none => .error "Unbekannter Service."
  | some svc =>
    if svc.kind = "wms" ∨ svc.kind = "wfs" ∨ svc.kind = "wcs" then
      negotiate (attempt maxUrlLen key svc fetch now ems) (upperKind svc.kind)
        (versionsFor svc.kind) none
    else .error "Unbekannter Service-Typ."

/-! ### Cache (`@lru_cache(maxsize=64)` over `(service_key, bucket)`) and facade -/

/-- Find an entry and return it together with the list without it. -/
def cacheExtract : List ((String × Nat) × ServiceResult) → String × Nat →
    Option (ServiceResult × List ((String × Nat) × ServiceResult))
  | [], _ => none
  | e :: es, k =>
    if e.1 = k then some (e.2, es)
    else (cacheExtract es k).map (fun p => (p.1, e :: p.2))

/-- Model of one call through `_get_service_data_cached`: on a hit the
stored result is returned (and promoted to most-recently-used); on a miss
the pipeline runs and only a success is stored, evicting the
least-recently-used entry beyond capacity 64.  A failure leaves the cache
untouched. -/
def cachedCall (st : List ((String × Nat) × ServiceResult)) (k : String × Nat)
    (run : Except String ServiceResult) :
    Except String ServiceResult × List ((String × Nat) × ServiceResult) :=
  match cacheExtract st k with
  | some (r, rest) => (.ok r, (k, r) :: rest)
  | none =>
    match run with
    | .ok r => (.ok r, ((k, r) :: st).take 64)
    | .error e => (.error e, st)

/-- Model of `get_service_data`, the pipeline facade: registry validation,
bypass path (`refresh == 1`) and the TTL-bucketed cached path. -/
def get_service_data (maxUrlLen ttl : Nat) (services : List (String × Svc))
    (st : List ((String × Nat) × ServiceResult)) (key : String) (refresh : Nat)
    (fetch : String → Except String Xml) (now ems : Nat) :
    Except String ServiceResult × List ((String × Nat) × ServiceResult) :=
  if (svcGet services key).isNone then
    (.error "Bitte wähle einen gültigen Service aus.", st)
  else
    let refreshN := if refresh = 1 then 1 else 0
    if refreshN = 1 then (_get_service_data_impl maxUrlLen services key fetch now ems, st)
    else
      cachedCall st (key, now / max ttl 1)
        (_get_service_data_impl maxUrlLen services key fetch now ems)

/-- Decidable equality for `Except`, so that concrete pipeline outcomes can
be checked by `decide`. -/
def exceptDecEq {ε α : Type} [DecidableEq ε] [DecidableEq α] : DecidableEq (Except ε α) :=
  fun x y =>
    match x, y with
    | .ok a, .ok b =>
      match decEq a b with
      | isTrue h => isTrue (by rw [h])
      | isFalse h => isFalse (by intro he; cases he; exact h rfl)
    | .error a, .error b =>
      match decEq a b with
      | isTrue h => isTrue (by rw [h])
      | isFalse h => isFalse (by intro he; cases he; exact h rfl)
    | .ok _, .error _ => isFalse (by intro he; cases he)
    | .error _, .ok _ => isFalse (by intro he; cases he)

instance {ε α : Type} [DecidableEq ε] [DecidableEq α] : DecidableEq (Except ε α) :=
  exceptDecEq

/-! ### The key comparison is a total preorder -/

theorem charListLt_irrefl : ∀ as : List Char, charListLt as as = false := by
  intro as
  induction as with
  | nil => rfl
  | cons a as ih => simp [charListLt, ih]

theorem charListLt_trans : ∀ as bs cs : List Char,
    charListLt as bs = true → charListLt bs cs = true → charListLt as cs = true := by
  intro as
  induction as with
  | nil =>
    intro bs cs h₁ h₂
    cases bs with
    | nil => simp [charListLt] at h₁
    | cons b bs =>
      cases cs with
      | nil => simp [charListLt] at h₂
      | cons c cs => simp [charListLt]
  | cons a as ih =>
    intro bs cs h₁ h₂
    cases bs with
    | nil => simp [charListLt] at h₁
    | cons b bs =>
      cases cs with
      | nil => simp [charListLt] at h₂
      | cons c cs =>
        simp only [charListLt, Bool.or_eq_true, Bool.and_eq_true, decide_eq_true_eq,
          beq_iff_eq] at h₁ h₂ ⊢
        rcases h₁ with h₁ | ⟨hab, h₁⟩
        · rcases h₂ with h₂ | ⟨hbc, h₂⟩
          · exact Or.inl (Nat.lt_trans h₁ h₂)
          · exact Or.inl (hbc ▸ h₁)
        · rcases h₂ with h₂ | ⟨hbc, h₂⟩
          · exact Or.inl (hab ▸ h₂)
          · exact Or.inr ⟨hab.trans hbc, ih bs cs h₁ h₂⟩

theorem charListLt_eq_of_both_false : ∀ as bs : List Char,
    charListLt as bs = false → charListLt bs as = false → as = bs := by
  intro as
  induction as with
  | nil =>
    intro bs h₁ _
    cases bs with
    | nil => rfl
    | cons b bs => simp [charListLt] at h₁
  | cons a as ih =>
    intro bs h₁ h₂
    cases bs with
    | nil => simp [charListLt] at h₂
    | cons b bs =>
      simp only [charListLt, Bool.or_eq_false_iff, Bool.and_eq_false_iff,
        decide_eq_false_iff_not, Nat.not_lt] at h₁ h₂
      obtain ⟨hab, h₁'⟩ := h₁
      obtain ⟨hba, h₂'⟩ := h₂
      have hval : a.toNat = b.toNat := Nat.le_antisymm hba hab
      have hc : a = b := by
        have := congrArg Char.ofNat hval
        rwa [Char.ofNat_toNat, Char.ofNat_toNat] at this
      subst hc
      rcases h₁' with h | h₁'
      · simp at h
      rcases h₂' with h | h₂'
      · simp at h
      exact congrArg (a :: ·) (ih bs h₁' h₂')

theorem tripLt_irrefl (k : List Char × List Char × List Char) : tripLt k k = false := by
  obtain ⟨p, l, n⟩ := k
  simp [tripLt, charListLt_irrefl]

theorem tripLt_trans {a b c : List Char × List Char × List Char}
    (h₁ : tripLt a b = true) (h₂ : tripLt b c = true) : tripLt a c = true := by
  obtain ⟨p₁, l₁, n₁⟩ := a
  obtain ⟨p₂, l₂, n₂⟩ := b
  obtain ⟨p₃, l₃, n₃⟩ := c
  simp only [tripLt, Bool.or_eq_true, Bool.and_eq_true, beq_iff_eq] at h₁ h₂ ⊢
  rcases h₁ with h₁ | ⟨hp, h₁⟩
  · rcases h₂ with h₂ | ⟨hp', h₂⟩
    · exact Or.inl (charListLt_trans _ _ _ h₁ h₂)
    · exact Or.inl (hp' ▸ h₁)
  · rcases h₂ with h₂ | ⟨hp', h₂⟩
    · exact Or.inl (hp ▸ h₂)
    · refine Or.inr ⟨hp.trans hp', ?_⟩
      rcases h₁ with h₁ | ⟨hl, h₁⟩
      · rcases h₂ with h₂ | ⟨hl', h₂⟩
        · exact Or.inl (charListLt_trans _ _ _ h₁ h₂)
        · exact Or.inl (hl' ▸ h₁)
      · rcases h₂ with h₂ | ⟨hl', h₂⟩
        · exact Or.inl (hl ▸ h₂)
        · exact Or.inr ⟨hl.trans hl', charListLt_trans _ _ _ h₁ h₂⟩

theorem tripLt_eq_of_both_false {a b : List Char × List Char × List Char}
    (h₁ : tripLt a b = false) (h₂ : tripLt b a = false) : a = b := by
  obtain ⟨p₁, l₁, n₁⟩ := a
  obtain ⟨p₂, l₂, n₂⟩ := b
  simp only [tripLt, Bool.or_eq_false_iff, Bool.and_eq_false_iff, beq_eq_false_iff_ne,
    ne_eq] at h₁ h₂
  obtain ⟨hp₁, h₁'⟩ := h₁
  obtain ⟨hp₂, h₂'⟩ := h₂
  have hp : p₁ = p₂ := charListLt_eq_of_both_false _ _ hp₁ hp₂
  subst hp
  rcases h₁' with h | h₁' ; · simp at h
  rcases h₂' with h | h₂' ; · simp at h
  obtain ⟨hl₁, h₁''⟩ := h₁'
  obtain ⟨hl₂, h₂''⟩ := h₂'
  have hl : l₁ = l₂ := charListLt_eq_of_both_false _ _ hl₁ hl₂
  subst hl
  rcases h₁'' with h | h₁'' ; · simp at h
  rcases h₂'' with h | h₂'' ; · simp at h
  have hn : n₁ = n₂ := charListLt_eq_of_both_false _ _ h₁'' h₂''
  simp [hn]

theorem tripLt_asymm {a b : List Char × List Char × List Char}
    (h : tripLt a b = true) : tripLt b a = false := by
  by_contra hc
  have hba : tripLt b a = true := by
    cases hh : tripLt b a
    · exact absurd hh hc
    · rfl
  have := tripLt_trans h hba
  rw [tripLt_irrefl] at this
  exact Bool.false_ne_true this

instance : IsTotal CatalogItem itemLeP := by
  constructor
  intro x y
  unfold itemLeP itemLe
  cases h : tripLt (itemKey y) (itemKey x)
  · exact Or.inl rfl
  · exact Or.inr (by simp [tripLt_asymm h])

instance : IsTrans CatalogItem itemLeP := by
  constructor
  intro x y z hxy hyz
  unfold itemLeP itemLe at hxy hyz ⊢
  simp only [Bool.not_eq_true'] at hxy hyz ⊢
  by_contra hc
  have hzx : tripLt (itemKey z) (itemKey x) = true := by
    cases hh : tripLt (itemKey z) (itemKey x)
    · exact absurd hh hc
    · rfl
  cases hh : tripLt (itemKey y) (itemKey z) with
  | true =>
    have := tripLt_trans hh hzx
    exact Bool.false_ne_true (hxy ▸ this)
  | false =>
    have hzy : itemKey z = itemKey y := tripLt_eq_of_both_false hyz hh
    rw [hzy] at hzx
    exact Bool.false_ne_true (hxy ▸ hzx)

/-- The pipeline's sort really sorts: its output is weakly ascending under
the key comparison. -/
theorem sorted_pySortItems (l : List CatalogItem) :
    List.Sorted itemLeP (pySortItems l) :=
  List.sorted_insertionSort itemLeP l

theorem perm_pySortItems (l : List CatalogItem) : (pySortItems l).Perm l :=
  List.perm_insertionSort itemLeP l

/-! ### Negotiation loop facts -/

theorem impl_eq_negotiate {maxUrlLen : Nat} {services : List (String × Svc)} {key : String}
    {svc : Svc} {fetch : String → Except String Xml} {now ems : Nat}
    (hk : svcGet services key = some svc)
    (hkind : svc.kind = "wms" ∨ svc.kind = "wfs" ∨ svc.kind = "wcs") :
    _get_service_data_impl maxUrlLen services key fetch now ems =
      negotiate (attempt maxUrlLen key svc fetch now ems) (upperKind svc.kind)
        (versionsFor svc.kind) none := by
  unfold _get_service_data_impl
  rw [hk]
  simp [hkind]

theorem negotiate_ok_exists {att : String → Except String ServiceResult} {kn : String} :
    ∀ (l : List String) (lastErr : Option String) (r : ServiceResult),
      negotiate att kn l lastErr = .ok r → ∃ v ∈ l, att v = .ok r := by
  intro l
  induction l with
  | nil => intro lastErr r h; simp [negotiate] at h
  | cons v vs ih =>
    intro lastErr r h
    rw [negotiate] at h
    cases hv : att v with
    | ok r' =>
      rw [hv] at h
      cases h
      exact ⟨v, by simp, hv⟩
    | error e =>
      rw [hv] at h
      obtain ⟨w, hw, hatt⟩ := ih (some e) r h
      exact ⟨w, by simp [hw], hatt⟩

theorem negotiate_first_success {att : String → Except String ServiceResult} {kn : String} :
    ∀ (l : List String) (i : Nat) (hi : i < l.length) (lastErr : Option String)
      (r : ServiceResult),
      (∀ j (hj : j < i), ∃ e, att (l.get ⟨j, Nat.lt_trans hj hi⟩) = .error e) →
      att (l.get ⟨i, hi⟩) = .ok r →
      negotiate att kn l lastErr = .ok r := by
  intro l
  induction l with
  | nil => intro i hi; exact absurd hi (by simp)
  | cons v vs ih =>
    intro i hi lastErr r hfail hok
    cases i with
    | zero =>
      simp only [List.get] at hok
      rw [negotiate, hok]
    | succ i =>
      obtain ⟨e, he⟩ := hfail 0 (Nat.succ_pos i)
      simp only [List.get] at he hok
      rw [negotiate, he]
      dsimp only
      exact ih i (Nat.lt_of_succ_lt_succ hi) (some e) r
        (fun j hj => by
          obtain ⟨e', he'⟩ := hfail (j + 1) (Nat.succ_lt_succ hj)
          simp only [List.get] at he'
          exact ⟨e', he'⟩) hok

theorem negotiate_all_fail {att : String → Except String ServiceResult} {kn : String} :
    ∀ (l : List String) (errs : Nat → String) (lastErr : Option String),
      l ≠ [] →
      (∀ j (hj : j < l.length), att (l.get ⟨j, hj⟩) = .error (errs j)) →
      negotiate att kn l lastErr = .error (failMsg kn (some (errs (l.length - 1)))) := by
  intro l
  induction l with
  | nil => intro errs lastErr h; exact absurd rfl h
  | cons v vs ih =>
    intro errs lastErr _ hfail
    have h0 : att v = .error (errs 0) := by
      have := hfail 0 (Nat.succ_pos _)
      simpa using this
    rw [negotiate, h0]
    dsimp only
    cases hvs : vs with
    | nil =>
      subst hvs
      rw [negotiate]
      simp
    | cons w ws =>
      subst hvs
      have hne : w :: ws ≠ [] := by simp
      have := ih (fun j => errs (j + 1)) (some (errs 0)) hne
        (fun j hj => by
          have := hfail (j + 1) (Nat.succ_lt_succ hj)
          simpa using this)
      rw [this]
      simp

theorem attempt_ok_items {maxUrlLen : Nat} {key : String} {svc : Svc}
    {fetch : String → Except String Xml} {now ems : Nat} {v : String} {r : ServiceResult}
    (h : attempt maxUrlLen key svc fetch now ems v = .ok r) :
    ∃ l, r.items = pySortItems l := by
  unfold attempt at h
  cases hb : _build_url maxUrlLen svc.url (candParams svc.kind v) with
  | error e => rw [hb] at h; simp at h
  | ok capUrl =>
    rw [hb] at h
    dsimp only at h
    cases hf : fetch capUrl with
    | error e => rw [hf] at h; simp at h
    | ok doc =>
      rw [hf] at h
      dsimp only at h
      by_cases h1 : svc.kind = "wms"
      · rcases hp : _parse_wms doc with ⟨items, pv⟩
        rw [if_pos h1, hp] at h
        cases h
        exact ⟨items, rfl⟩
      · rw [if_neg h1] at h
        by_cases h2 : svc.kind = "wfs"
        · rcases hp : _parse_wfs doc with ⟨items, pv, ofs⟩
          rw [if_pos h2, hp] at h
          cases h
          exact ⟨items, rfl⟩
        · rw [if_neg h2] at h
          by_cases h3 : svc.kind = "wcs"
          · rcases hp : _parse_wcs doc with ⟨items, pv, ofs⟩
            rw [if_pos h3, hp] at h
            cases h
            exact ⟨items, rfl⟩
          · rw [if_neg h3] at h
            simp at h

theorem chainLeB_of_sorted : ∀ l : List CatalogItem,
    List.Sorted itemLeP l → chainLeB itemLe l = true := by
  intro l
  induction l with
  | nil => intro _; rfl
  | cons a l ih =>
    intro h
    rw [List.sorted_cons] at h
    obtain ⟨ha, hl⟩ := h
    cases l with
    | nil => rfl
    | cons b t =>
      have hab : itemLe a b = true := ha b (by simp)
      simp only [chainLeB, Bool.and_eq_true]
      exact ⟨hab, ih hl⟩

/-! ### Claim C1 — sortedness of the pipeline output -/

/-- Dummy result used only to project concrete pipeline outcomes in closed
statements. -/
def emptyResult : ServiceResult :=
  { service := { key := "", label := "", kind := "", url := "", capabilities_url := "",
                 version := none, output_formats := none },
    counts := { items := 0, styles := none },
    items := [], fetched_at := 0, fetch_ms := 0 }

/-- Claim C1, amended: for every successful pipeline run — any registry, any
service key (hence any kind WMS/WFS/WCS), any injected capabilities
document — the items list of the returned `ServiceResult` is sorted
ascending (weakly, i.e. non-decreasing), case-sensitively, by the key
`(prefix, localName, name)`.  (The original claim said "strictly"; see the
counterexample with duplicate layer names.) -/
theorem pipeline_items_sorted (maxUrlLen : Nat) (services : List (String × Svc))
    (key : String) (fetch : String → Except String Xml) (now ems : Nat) (r : ServiceResult)
    (h : _get_service_data_impl maxUrlLen services key fetch now ems = .ok r) :
    List.Pairwise itemLeP r.items := by
  unfold _get_service_data_impl at h
  cases hk : svcGet services key with
  | none => rw [hk] at h; simp at h
  | some svc =>
    rw [hk] at h
    dsimp only at h
    by_cases hkind : svc.kind = "wms" ∨ svc.kind = "wfs" ∨ svc.kind = "wcs"
    · rw [if_pos hkind] at h
      obtain ⟨v, _, hatt⟩ := negotiate_ok_exists (versionsFor svc.kind) none r h
      obtain ⟨l, hl⟩ := attempt_ok_items hatt
      rw [hl]
      exact sorted_pySortItems l
    · rw [if_neg hkind] at h
      simp at h

/-- Registry/document fixture for C1: a WMS capabilities document whose two
leaf layers share the same `Name`, so the pipeline emits two items with
identical sort keys. -/
def svcDup : Svc := { label := "L", kind := "wms", url := "https://e/x" }

def docDup : Xml :=
  .elem "WMS_Capabilities" [] "" (.ofList [
    .elem "Capability" [] "" (.ofList [
      .elem "Layer" [] "" (.ofList [
        .elem "Layer" [] "" (.ofList [.elem "Name" [] "dup" .nil]),
        .elem "Layer" [] "" (.ofList [.elem "Name" [] "dup" .nil])])])])

def fetchDup : String → Except String Xml := fun _ => .ok docDup

def resDup : ServiceResult :=
  (_get_service_data_impl 400 [("k", svcDup)] "k" fetchDup 0 0).toOption.getD emptyResult

def itemDup : CatalogItem :=
  { type := "wms_layer", name := "dup", pfx := "", local_name := "dup", title := "",
    abstract := "", queryable := "", crs := [], bbox_wgs84 := none, styles := [] }

/-- Claim C1, counterexample to the claim as stated: this successful
pipeline run returns two items with identical `(prefix, localName, name)`
keys, so its items list is NOT strictly sorted by that key. -/
theorem pipeline_items_not_strictly_sorted_cex :
    _get_service_data_impl 400 [("k", svcDup)] "k" fetchDup 0 0 = .ok resDup ∧
    resDup.items = [itemDup, itemDup] ∧
    ¬ List.Pairwise (fun a b => itemLt a b = true) resDup.items := by
  refine ⟨by decide, by decide, ?_⟩
  intro h
  have hitems : resDup.items = [itemDup, itemDup] := by decide
  rw [hitems] at h
  have := (List.pairwise_cons.mp h).1 itemDup (by simp)
  exact absurd this (by decide)

/-- Witness for C1's amended theorem at a concrete input. -/
theorem pipeline_items_sorted_witness :
    _get_service_data_impl 400 [("k", svcDup)] "k" fetchDup 5 7 = .ok
      ((_get_service_data_impl 400 [("k", svcDup)] "k" fetchDup 5 7).toOption.getD emptyResult) ∧
    List.Pairwise itemLeP
      ((_get_service_data_impl 400 [("k", svcDup)] "k" fetchDup 5 7).toOption.getD emptyResult).items :=
  ⟨by decide, pipeline_items_sorted 400 [("k", svcDup)] "k" fetchDup 5 7 _ (by decide)⟩

/-! ### Claim C4 — version candidate order and first-success semantics -/

/-- Claim C4: version candidates are attempted strictly in the fixed
per-kind order (WMS 1.3.0, 1.1.1, unspecified; WFS 2.0.0, 1.1.0, 1.0.0,
unspecified; WCS 2.0.1, 2.0.0, 1.0.0, unspecified); the first candidate
whose fetch and parse succeed determines the returned result, and no later
candidate is attempted after a success (the pipeline outcome is independent
of the oracle's answers beyond the first succeeding candidate). -/
theorem version_negotiation_first_success (maxUrlLen : Nat)
    (services : List (String × Svc)) (key : String) (svc : Svc)
    (fetch : String → Except String Xml) (now ems : Nat) (i : Nat) (r : ServiceResult)
    (hk : svcGet services key = some svc)
    (hkind : svc.kind = "wms" ∨ svc.kind = "wfs" ∨ svc.kind = "wcs")
    (hi : i < (versionsFor svc.kind).length)
    (hfail : ∀ j (hj : j < i), ∃ e, attempt maxUrlLen key svc fetch now ems
        ((versionsFor svc.kind).get ⟨j, Nat.lt_trans hj hi⟩) = .error e)
    (hok : attempt maxUrlLen key svc fetch now ems
        ((versionsFor svc.kind).get ⟨i, hi⟩) = .ok r) :
    versionsFor "wms" = ["1.3.0", "1.1.1", ""] ∧
    versionsFor "wfs" = ["2.0.0", "1.1.0", "1.0.0", ""] ∧
    versionsFor "wcs" = ["2.0.1", "2.0.0", "1.0.0", ""] ∧
    _get_service_data_impl maxUrlLen services key fetch now ems = .ok r ∧
    (∀ fetch' : String → Except String Xml,
      (∀ j (hj : j ≤ i), attempt maxUrlLen key svc fetch' now ems
          ((versionsFor svc.kind).get ⟨j, Nat.lt_of_le_of_lt hj hi⟩) =
        attempt maxUrlLen key svc fetch now ems
          ((versionsFor svc.kind).get ⟨j, Nat.lt_of_le_of_lt hj hi⟩)) →
      _get_service_data_impl maxUrlLen services key fetch' now ems = .ok r) := by
  refine ⟨rfl, rfl, rfl, ?_, ?_⟩
  · rw [impl_eq_negotiate hk hkind]
    exact negotiate_first_success (versionsFor svc.kind) i hi none r hfail hok
  · intro fetch' hagree
    rw [impl_eq_negotiate hk hkind]
    refine negotiate_first_success (versionsFor svc.kind) i hi none r ?_ ?_
    · intro j hj
      obtain ⟨e, he⟩ := hfail j hj
      refine ⟨e, ?_⟩
      rw [hagree j (Nat.le_of_lt hj)]
      exact he
    · rw [hagree i (Nat.le_refl i)]
      exact hok

/-- Fixture for C4's witness: the candidate URL for WMS 1.3.0 fails, the
candidate URL for WMS 1.1.1 succeeds. -/
def svcFb : Svc := { label := "L", kind := "wms", url := "https://e/x" }

def docFb : Xml :=
  .elem "WMS_Capabilities" [("version", "1.1.1")] "" (.ofList [
    .elem "Capability" [] "" (.ofList [
      .elem "Layer" [] "" (.ofList [.elem "Name" [] "only" .nil])])])

def fetchFb : String → Except String Xml := fun url =>
  if url = "https://e/x?service=WMS&request=GetCapabilities&version=1.3.0" then
    .error "boom"
  else .ok docFb

def resFb : ServiceResult :=
  (_get_service_data_impl 400 [("k", svcFb)] "k" fetchFb 0 0).toOption.getD emptyResult

/-- Witness for C4 at a concrete input: first candidate fails, second
succeeds and determines the result. -/
theorem version_negotiation_first_success_witness :
    _get_service_data_impl 400 [("k", svcFb)] "k" fetchFb 0 0 = .ok resFb ∧
    resFb.service.version = some "1.1.1" := by
  have e13 : attempt 400 "k" svcFb fetchFb 0 0 "1.3.0" = .error "boom" := by decide
  have e11 : attempt 400 "k" svcFb fetchFb 0 0 "1.1.1" = .ok resFb := by decide
  have h := version_negotiation_first_success 400 [("k", svcFb)] "k" svcFb fetchFb 0 0 1 resFb
    (by decide) (by decide) (by decide)
    (by
      intro j hj
      have hj0 : j = 0 := by omega
      subst hj0
      exact ⟨"boom", e13⟩)
    e11
  exact ⟨h.2.2.2.1, by decide⟩

/-! ### Claim C5 — aggregate failure carries the truncated last error -/

/-- Claim C5: when every version candidate fails, the pipeline fails with
the `CapabilitiesUnavailable` error (`"… Capabilities konnten nicht geladen
werden: …"`) whose message carries the last underlying error truncated to at
most 220 characters; earlier candidates' errors are discarded and the last
failure's message is attached rather than silently dropped. -/
theorem version_negotiation_all_fail (maxUrlLen : Nat)
    (services : List (String × Svc)) (key : String) (svc : Svc)
    (fetch : String → Except String Xml) (now ems : Nat) (errs : Nat → String)
    (hk : svcGet services key = some svc)
    (hkind : svc.kind = "wms" ∨ svc.kind = "wfs" ∨ svc.kind = "wcs")
    (hfail : ∀ j (hj : j < (versionsFor svc.kind).length),
      attempt maxUrlLen key svc fetch now ems
        ((versionsFor svc.kind).get ⟨j, hj⟩) = .error (errs j)) :
    _get_service_data_impl maxUrlLen services key fetch now ems =
      .error (upperKind svc.kind ++ " Capabilities konnten nicht geladen werden: " ++
        strTake (errs ((versionsFor svc.kind).length - 1)) 220) ∧
    (strTake (errs ((versionsFor svc.kind).length - 1)) 220).length ≤ 220 := by
  constructor
  · rw [impl_eq_negotiate hk hkind]
    have hne : versionsFor svc.kind ≠ [] := by
      rcases hkind with h | h | h <;> rw [h] <;> simp [versionsFor]
    rw [negotiate_all_fail (versionsFor svc.kind) errs none hne hfail]
    rfl
  · show (⟨_⟩ : String).length ≤ 220
    simp only [strTake, String.length]
    calc (List.take 220 (errs ((versionsFor svc.kind).length - 1)).data).length
        ≤ 220 := by
          rw [List.length_take]
          exact Nat.min_le_left _ _

/-- Witness for C5 at a concrete input: every WMS candidate fails with
`"boom"`, and the pipeline surfaces exactly the truncated last error. -/
theorem version_negotiation_all_fail_witness :
    _get_service_data_impl 400 [("k", svcFb)] "k" (fun _ => .error "boom") 0 0 =
      .error "WMS Capabilities konnten nicht geladen werden: boom" := by
  have e0 : attempt 400 "k" svcFb (fun _ => .error "boom") 0 0 "1.3.0" = .error "boom" := by
    decide
  have e1 : attempt 400 "k" svcFb (fun _ => .error "boom") 0 0 "1.1.1" = .error "boom" := by
    decide
  have e2 : attempt 400 "k" svcFb (fun _ => .error "boom") 0 0 "" = .error "boom" := by
    decide
  have h := version_negotiation_all_fail 400 [("k", svcFb)] "k" svcFb
    (fun _ => .error "boom") 0 0 (fun _ => "boom")
    (by decide) (by decide)
    (by
      intro j hj
      have hj3 : j < 3 := by simpa [versionsFor] using hj
      interval_cases j
      · exact e0
      · exact e1
      · exact e2)
  have h1 := h.1
  rw [h1]
  decide

/-! ### Cache facts -/

theorem get_eq_cachedCall {maxUrlLen ttl : Nat} {services : List (String × Svc)}
    {st : List ((String × Nat) × ServiceResult)} {key : String} {svc : Svc}
    {fetch : String → Except String Xml} {now ems : Nat}
    (hk : svcGet services key = some svc) :
    get_service_data maxUrlLen ttl services st key 0 fetch now ems =
      cachedCall st (key, now / max ttl 1)
        (_get_service_data_impl maxUrlLen services key fetch now ems) := by
  simp [get_service_data, hk]

theorem get_bypass {maxUrlLen ttl : Nat} {services : List (String × Svc)}
    {st : List ((String × Nat) × ServiceResult)} {key : String} {svc : Svc}
    {fetch : String → Except String Xml} {now ems : Nat}
    (hk : svcGet services key = some svc) :
    get_service_data maxUrlLen ttl services st key 1 fetch now ems =
      (_get_service_data_impl maxUrlLen services key fetch now ems, st) := by
  simp [get_service_data, hk]

theorem cacheExtract_cons_self (k : String × Nat) (r : ServiceResult)
    (rest : List ((String × Nat) × ServiceResult)) :
    cacheExtract ((k, r) :: rest) k = some (r, rest) := by
  simp [cacheExtract]

/-- After a cached call returns a success, the cache holds that result at
the most-recently-used position under the called key. -/
theorem cachedCall_ok_state {st : List ((String × Nat) × ServiceResult)}
    {k : String × Nat} {run : Except String ServiceResult} {r : ServiceResult}
    {st₁ : List ((String × Nat) × ServiceResult)}
    (h : cachedCall st k run = (.ok r, st₁)) :
    ∃ rest, st₁ = (k, r) :: rest := by
  unfold cachedCall at h
  cases hx : cacheExtract st k with
  | some p =>
    rw [hx] at h
    obtain ⟨r₀, rest⟩ := p
    simp only [Prod.mk.injEq] at h
    obtain ⟨h₁, h₂⟩ := h
    cases h₁
    exact ⟨rest, h₂.symm⟩
  | none =>
    rw [hx] at h
    cases hr : run with
    | ok r' =>
      rw [hr] at h
      simp only [Prod.mk.injEq] at h
      obtain ⟨h₁, h₂⟩ := h
      cases h₁
      refine ⟨(st.take 63), ?_⟩
      rw [← h₂]
      rfl
    | error e =>
      rw [hr] at h
      simp at h

/-! ### Claim C2 — failures are never cached -/

/-- Claim C2: a pipeline run that fails stores nothing in the cache — the
first non-bypassing call surfaces the error and leaves the cache state
untouched, and a subsequent non-bypassing call for the same key in the same
TTL bucket runs the pipeline (hence the network oracle) again: its outcome
is that of the new pipeline run, not a replay of the earlier failure. -/
theorem cache_failure_not_stored (maxUrlLen ttl : Nat) (services : List (String × Svc))
    (st : List ((String × Nat) × ServiceResult)) (key : String) (svc : Svc)
    (fetch₁ fetch₂ : String → Except String Xml) (now₁ now₂ ems₁ ems₂ : Nat) (e : String)
    (hk : svcGet services key = some svc)
    (hmiss : cacheExtract st (key, now₁ / max ttl 1) = none)
    (herr : _get_service_data_impl maxUrlLen services key fetch₁ now₁ ems₁ = .error e)
    (hb : now₂ / max ttl 1 = now₁ / max ttl 1) :
    get_service_data maxUrlLen ttl services st key 0 fetch₁ now₁ ems₁ = (.error e, st) ∧
    (get_service_data maxUrlLen ttl services st key 0 fetch₂ now₂ ems₂).1 =
      _get_service_data_impl maxUrlLen services key fetch₂ now₂ ems₂ := by
  constructor
  · rw [get_eq_cachedCall hk]
    unfold cachedCall
    rw [hmiss, herr]
  · rw [get_eq_cachedCall hk]
    unfold cachedCall
    rw [hb, hmiss]
    cases himpl : _get_service_data_impl maxUrlLen services key fetch₂ now₂ ems₂ <;> rfl

/-- Fixture for C2/C3 witnesses. -/
def fetchOk : String → Except String Xml := fun _ => .ok docFb

def resOk : ServiceResult :=
  (_get_service_data_impl 400 [("k", svcFb)] "k" fetchOk 10 3).toOption.getD emptyResult

/-- Witness for C2 at a concrete input: a failing run caches nothing and the
next call in the same bucket re-runs the (now succeeding) pipeline. -/
theorem cache_failure_not_stored_witness :
    get_service_data 400 900 [("k", svcFb)] [] "k" 0 (fun _ => .error "down") 10 3 =
      (.error "WMS Capabilities konnten nicht geladen werden: down", []) ∧
    (get_service_data 400 900 [("k", svcFb)] [] "k" 0 fetchOk 11 3).1 =
      _get_service_data_impl 400 [("k", svcFb)] "k" fetchOk 11 3 := by
  have h := cache_failure_not_stored 400 900 [("k", svcFb)] [] "k" svcFb
    (fun _ => .error "down") fetchOk 10 11 3 3
    "WMS Capabilities konnten nicht geladen werden: down"
    (by decide) (by decide) (by decide) (by decide)
  exact h

/-! ### Claim C3 — same-bucket idempotence and true bypass -/

/-- Claim C3: two successive non-bypassing calls in the same TTL bucket
return the identical `ServiceResult` (the second call replays the stored
value, so every field including `fetched_at` is unchanged even though the
second call's clock and oracle differ), while a bypassing call
(`refresh = 1`) always runs the full pipeline with its own oracle and its
result — success or error — is not stored in the cache. -/
theorem cache_idempotence_and_bypass (maxUrlLen ttl : Nat)
    (services : List (String × Svc))
    (st st₁ : List ((String × Nat) × ServiceResult)) (key : String) (svc : Svc)
    (fetch₁ fetch₂ : String → Except String Xml) (now₁ now₂ ems₁ ems₂ : Nat)
    (r : ServiceResult)
    (hk : svcGet services key = some svc)
    (h₁ : get_service_data maxUrlLen ttl services st key 0 fetch₁ now₁ ems₁ = (.ok r, st₁))
    (hb : now₂ / max ttl 1 = now₁ / max ttl 1) :
    (get_service_data maxUrlLen ttl services st₁ key 0 fetch₂ now₂ ems₂).1 = .ok r ∧
    (∀ (fetch₃ : String → Except String Xml) (now₃ ems₃ : Nat)
      (st' : List ((String × Nat) × ServiceResult)),
      get_service_data maxUrlLen ttl services st' key 1 fetch₃ now₃ ems₃ =
        (_get_service_data_impl maxUrlLen services key fetch₃ now₃ ems₃, st')) := by
  constructor
  · rw [get_eq_cachedCall hk] at h₁
    obtain ⟨rest, hrest⟩ := cachedCall_ok_state h₁
    rw [get_eq_cachedCall hk, hrest, hb]
    unfold cachedCall
    rw [cacheExtract_cons_self]
  · intro fetch₃ now₃ ems₃ st'
    exact get_bypass hk

/-- Witness for C3 at a concrete input: a hit in the same bucket replays the
stored result byte for byte (`fetched_at` 10, not 11), and the bypass path
leaves the cache untouched. -/
theorem cache_idempotence_and_bypass_witness :
    (get_service_data 400 900 [("k", svcFb)]
      (get_service_data 400 900 [("k", svcFb)] [] "k" 0 fetchOk 10 3).2
      "k" 0 (fun _ => .error "down") 11 4).1 = .ok resOk ∧
    resOk.fetched_at = 10 := by
  have h := cache_idempotence_and_bypass 400 900 [("k", svcFb)] []
    (get_service_data 400 900 [("k", svcFb)] [] "k" 0 fetchOk 10 3).2 "k" svcFb
    fetchOk (fun _ => .error "down") 10 11 3 4 resOk
    (by decide) (by decide) (by decide)
  exact ⟨h.1, by decide⟩

/-! ### Claim C8 — endpoint builder reject conditions -/

theorem toNat_ofNat_of_valid {n : Nat} (h : n.isValidChar) : (Char.ofNat n).toNat = n := by
  rw [Char.ofNat, dif_pos h]
  simp [Char.ofNatAux, Char.toNat, UInt32.toNat]

theorem pyLowerChar_idem (c : Char) : pyLowerChar (pyLowerChar c) = pyLowerChar c := by
  unfold pyLowerChar
  by_cases h : 65 ≤ c.toNat ∧ c.toNat ≤ 90
  · rw [if_pos h]
    have hval : (Char.ofNat (c.toNat + 32)).toNat = c.toNat + 32 :=
      toNat_ofNat_of_valid (Or.inl (by omega))
    rw [if_neg (by omega)]
  · rw [if_neg h, if_neg h]

theorem mapLowerChar_idem : ∀ l : List Char,
    (l.map pyLowerChar).map pyLowerChar = l.map pyLowerChar := by
  intro l
  induction l with
  | nil => rfl
  | cons a l ih => simp only [List.map_cons, pyLowerChar_idem, ih]

theorem pyLower_idem (s : String) : pyLower (pyLower s) = pyLower s := by
  unfold pyLower
  exact congrArg String.mk (mapLowerChar_idem s.data)

theorem schemeSplit_lower (body : String) :
    pyLower (schemeSplit body).1 = (schemeSplit body).1 := by
  unfold schemeSplit
  cases h : splitFirstAux ':' body.data with
  | none => rfl
  | some p =>
    obtain ⟨pre, post⟩ := p
    dsimp only
    split
    · exact pyLower_idem _
    · rfl

/-- The scheme produced by the `urlsplit` model is already lowercase. -/
theorem urlsplitM_scheme_lower (url : String) :
    pyLower (urlsplitM url).scheme = (urlsplitM url).scheme := by
  unfold urlsplitM
  exact schemeSplit_lower _

/-- Claim C8: the endpoint builder fails (building no URL) exactly when the
base URL is empty, longer than the configured maximum, or its scheme is not
`https`; for every other base URL it returns a rebuilt URL.  (The scheme of
a URL is what `urlsplit` yields; schemes are case-normalised to lowercase by
URL parsing, which the code's additional `.lower()` makes explicit.) -/
theorem build_url_invalid_iff (maxUrlLen : Nat) (baseUrl : String)
    (updates : List (String × String)) :
    (_build_url maxUrlLen baseUrl updates).toOption = none ↔
      (baseUrl = "" ∨ maxUrlLen < baseUrl.length ∨ (urlsplitM baseUrl).scheme ≠ "https") := by
  unfold _build_url
  by_cases h₁ : baseUrl = "" ∨ baseUrl.length > maxUrlLen
  · rw [if_pos h₁]
    constructor
    · intro _
      rcases h₁ with h | h
      · exact Or.inl h
      · exact Or.inr (Or.inl h)
    · intro _; rfl
  · rw [if_neg h₁]
    by_cases h₂ : pyLower (urlsplitM baseUrl).scheme ≠ "https"
    · rw [if_pos h₂]
      constructor
      · intro _
        refine Or.inr (Or.inr ?_)
        rw [← urlsplitM_scheme_lower]
        exact h₂
      · intro _; rfl
    · rw [if_neg h₂]
      constructor
      · intro h
        exact absurd h (by simp [Except.toOption])
      · intro hc
        rcases hc with h | h | h
        · exact absurd (Or.inl h) h₁
        · exact absurd (Or.inr h) h₁
        · rw [← urlsplitM_scheme_lower] at h
          exact absurd h h₂

/-! ### Claim C10 — CRS collection deduplicates, keeping first occurrences -/

/-- Spec-side stable deduplication: keep each distinct value exactly once,
at the position of its first occurrence, in order. -/
def firstDedup : List String → List String
  | [] => []
  | v :: vs => v :: firstDedup (vs.filter (fun w => w ≠ v))
termination_by l => l.length
decreasing_by
  simp only [List.length_cons]
  exact Nat.lt_succ_of_le (List.length_filter_le _ _)

theorem mem_firstDedup : ∀ (l : List String) (x : String), x ∈ firstDedup l ↔ x ∈ l := by
  intro l
  induction l using firstDedup.induct with
  | case1 => intro x; rw [firstDedup]
  | case2 v vs ih =>
    intro x
    rw [firstDedup]
    by_cases hx : x = v
    · simp [hx]
    · simp only [List.mem_cons, hx, false_or]
      rw [ih x]
      simp [List.mem_filter, hx]

theorem nodup_firstDedup : ∀ l : List String, (firstDedup l).Nodup := by
  intro l
  induction l using firstDedup.induct with
  | case1 => rw [firstDedup]; exact List.nodup_nil
  | case2 v vs ih =>
    rw [firstDedup]
    refine List.nodup_cons.mpr ⟨?_, ih⟩
    intro hv
    have := (mem_firstDedup _ v).mp hv
    simp [List.mem_filter] at this

theorem pyDedupAux_eq : ∀ (vs acc : List String),
    pyDedupAux vs acc = acc ++ firstDedup (vs.filter (fun w => ¬ w ∈ acc)) := by
  intro vs
  induction vs with
  | nil => intro acc; simp [pyDedupAux, firstDedup]
  | cons v vs ih =>
    intro acc
    by_cases hv : v ∈ acc
    · rw [pyDedupAux, if_pos hv, ih acc]
      congr 2
      rw [List.filter_cons]
      simp [hv]
    · rw [pyDedupAux, if_neg hv, ih (acc ++ [v])]
      rw [List.filter_cons, if_pos (by simp [hv])]
      rw [firstDedup]
      rw [List.append_assoc, List.singleton_append]
      congr 2
      rw [List.filter_filter]
      congr 1
      apply List.filter_congr
      intro a _
      by_cases h1 : a = v <;> by_cases h2 : a ∈ acc <;>
        simp [h1, h2, List.mem_append]

theorem pyDedup_eq_firstDedup (xs : List String) : pyDedup xs = firstDedup xs := by
  unfold pyDedup
  rw [pyDedupAux_eq]
  simp

/-- Claim C10: for every WMS layer node, the CRS list collected from its own
`CRS`/`SRS` children contains no duplicates: it equals the first-occurrence
stable deduplication of the raw child texts (each distinct non-empty code
exactly once, in the document order of its first occurrence), and every
collected code is non-empty. -/
theorem collect_crs_first_occurrence (x : Xml) :
    collect_crs x = firstDedup (rawCrsTexts x) ∧
    (collect_crs x).Nodup ∧
    (∀ v, v ∈ collect_crs x ↔ v ∈ rawCrsTexts x) ∧
    (∀ v ∈ collect_crs x, v ≠ "") := by
  have h1 : collect_crs x = firstDedup (rawCrsTexts x) := pyDedup_eq_firstDedup _
  have hmem : ∀ v, v ∈ collect_crs x ↔ v ∈ rawCrsTexts x := by
    intro v
    rw [h1]
    exact mem_firstDedup _ v
  refine ⟨h1, by rw [h1]; exact nodup_firstDedup _, hmem, ?_⟩
  intro v hv
  have hraw : v ∈ rawCrsTexts x := (hmem v).mp hv
  unfold rawCrsTexts at hraw
  rw [List.mem_filterMap] at hraw
  obtain ⟨c, _, hsome⟩ := hraw
  by_cases htag : _local c.tag = "CRS" ∨ _local c.tag = "SRS"
  · rw [if_pos htag] at hsome
    dsimp only at hsome
    by_cases ht : pyStrip c.text = ""
    · rw [if_pos ht] at hsome
      cases hsome
    · rw [if_neg ht] at hsome
      cases hsome
      exact ht
  · rw [if_neg htag] at hsome
    cases hsome

/-! ### Nearest-ancestor context (spec side for the WMS walk) -/

/-- The title of the nearest ancestor (innermost first) that has an own
non-empty `Title` child, if any. -/
def nearestTitle (anc : List Xml) : Option String :=
  anc.reverse.findSome? (fun a => _child_text a "Title")

/-- The CRS list of the nearest ancestor that declares at least one own
`CRS`/`SRS` child; `[]` when no ancestor declares any. -/
def nearestCrs (anc : List Xml) : List String :=
  (anc.reverse.findSome? (fun a =>
    if collect_crs a = [] then none else some (collect_crs a))).getD []

mutual
/-- All nodes of the `Layer`-walk below (and including) `x`, each paired
with its ancestor chain (outermost first), in the walk's pre-order. -/
def layerAnn (x : Xml) (anc : List Xml) : List (Xml × List Xml) :=
  match x with
  | .elem t a s cs =>
    (Xml.elem t a s cs, anc) :: layerAnnChildren cs (anc ++ [Xml.elem t a s cs])
def layerAnnChildren (cs : XmlList) (anc : List Xml) : List (Xml × List Xml) :=
  match cs with
  | .nil => []
  | .cons c rest =>
    (if _local c.tag = "Layer" then layerAnn c anc else []) ++ layerAnnChildren rest anc
end

/-- Spec-side per-node emission: a node with a non-empty `Name` becomes an
item whose title is its own title, falling back to the nearest ancestor's,
and whose CRS list is its own (deduplicated) list when it declares at least
one `CRS`/`SRS` child and exactly the nearest declaring ancestor's list
otherwise — replacement, never a merge. -/
def specEmit (p : Xml × List Xml) : Option CatalogItem :=
  match _child_text p.1 "Name" with
  | none => none
  | some nm =>
    some { type := "wms_layer", name := nm, pfx := (_split_qname nm).1,
           local_name := (_split_qname nm).2,
           title := pyOrStr (pyOr (_child_text p.1 "Title") (nearestTitle p.2)) "",
           abstract := pyOrStr (_child_text p.1 "Abstract") "",
           queryable := pyOrStr (attrGet p.1 "queryable") "",
           crs := if collect_crs p.1 ≠ [] then collect_crs p.1 else nearestCrs p.2,
           bbox_wgs84 := parse_wgs84_bbox_wms p.1, styles := stylesOf p.1 }

theorem _child_text_ne_empty {x : Xml} {nm t : String}
    (h : _child_text x nm = some t) : t ≠ "" := by
  unfold _child_text at h
  cases hf : x.childList.find? (fun c => _local c.tag = nm) with
  | none => rw [hf] at h; cases h
  | some c =>
    rw [hf] at h
    dsimp only at h
    by_cases ht : pyStrip c.text = ""
    · rw [if_pos ht] at h; cases h
    · rw [if_neg ht] at h; cases h; exact ht

theorem nearestTitle_append (anc : List Xml) (x : Xml) :
    nearestTitle (anc ++ [x]) = pyOr (_child_text x "Title") (nearestTitle anc) := by
  unfold nearestTitle
  rw [List.reverse_append, List.reverse_singleton, List.singleton_append,
    List.findSome?_cons]
  cases h : _child_text x "Title" with
  | none => simp [pyOr, pyTruthy]
  | some t =>
    have hne := _child_text_ne_empty h
    simp [pyOr, pyTruthy, hne]

theorem nearestCrs_append (anc : List Xml) (x : Xml) :
    nearestCrs (anc ++ [x]) =
      if collect_crs x ≠ [] then collect_crs x else nearestCrs anc := by
  unfold nearestCrs
  rw [List.reverse_append, List.reverse_singleton, List.singleton_append,
    List.findSome?_cons]
  by_cases hc : collect_crs x = []
  · rw [if_pos hc]
    simp [hc]
  · rw [if_neg hc]
    simp [hc]

mutual
/-- The code's `walk`, called with the nearest-ancestor context of `anc`,
emits exactly the spec-side per-node items of the annotated walk. -/
theorem walk_eq_spec : ∀ (x : Xml) (anc : List Xml),
    walk x (nearestTitle anc) (nearestCrs anc) = (layerAnn x anc).filterMap specEmit
  | .elem t a s cs, anc => by
    rw [walk, layerAnn]
    have hT : pyOr (_child_text (Xml.elem t a s cs) "Title") (nearestTitle anc) =
        nearestTitle (anc ++ [Xml.elem t a s cs]) := (nearestTitle_append anc _).symm
    have hhead : wmsEmit (Xml.elem t a s cs)
        (pyOr (_child_text (Xml.elem t a s cs) "Title") (nearestTitle anc))
        (if collect_crs (Xml.elem t a s cs) ≠ [] then collect_crs (Xml.elem t a s cs)
         else nearestCrs anc) =
        (specEmit (Xml.elem t a s cs, anc)).toList := by
      unfold wmsEmit specEmit
      cases _child_text (Xml.elem t a s cs) "Name" with
      | none => rfl
      | some nm => rfl
    rw [hhead, hT, (nearestCrs_append anc (Xml.elem t a s cs)).symm,
      walkChildren_eq_spec cs (anc ++ [Xml.elem t a s cs]), List.filterMap_cons]
    cases specEmit (Xml.elem t a s cs, anc) with
    | none => rfl
    | some b => rfl
theorem walkChildren_eq_spec : ∀ (cs : XmlList) (anc : List Xml),
    walkChildren cs (nearestTitle anc) (nearestCrs anc) =
      (layerAnnChildren cs anc).filterMap specEmit
  | .nil, _ => by rw [walkChildren, layerAnnChildren]; rfl
  | .cons c rest, anc => by
    rw [walkChildren, layerAnnChildren, List.filterMap_append]
    congr 1
    · by_cases h : _local c.tag = "Layer"
      · rw [if_pos h, if_pos h]
        exact walk_eq_spec c anc
      · rw [if_neg h, if_neg h]
        rfl
    · exact walkChildren_eq_spec rest anc
end

/-! ### Per-item invariants of the three parsers -/

mutual
theorem walk_item_props : ∀ (x : Xml) (it : Option String) (ic : List String)
    (i : CatalogItem), i ∈ walk x it ic →
    i.name ≠ "" ∧ (i.pfx, i.local_name) = _split_qname i.name ∧ i.type = "wms_layer"
  | .elem t a s cs, it, ic, i => by
    intro h
    rw [walk] at h
    rw [List.mem_append] at h
    rcases h with h | h
    · unfold wmsEmit at h
      cases hn : _child_text (Xml.elem t a s cs) "Name" with
      | none => rw [hn] at h; cases h
      | some nm =>
        rw [hn] at h
        rw [List.mem_singleton] at h
        subst h
        exact ⟨_child_text_ne_empty hn, rfl, rfl⟩
    · exact walkChildren_item_props cs _ _ i h
theorem walkChildren_item_props : ∀ (cs : XmlList) (it : Option String)
    (ic : List String) (i : CatalogItem), i ∈ walkChildren cs it ic →
    i.name ≠ "" ∧ (i.pfx, i.local_name) = _split_qname i.name ∧ i.type = "wms_layer"
  | .nil, it, ic, i => by intro h; rw [walkChildren] at h; cases h
  | .cons c rest, it, ic, i => by
    intro h
    rw [walkChildren] at h
    rw [List.mem_append] at h
    rcases h with h | h
    · by_cases hc : _local c.tag = "Layer"
      · rw [if_pos hc] at h
        exact walk_item_props c _ _ i h
      · rw [if_neg hc] at h
        cases h
    · exact walkChildren_item_props rest _ _ i h
end

theorem parse_wms_item_props {doc : Xml} {i : CatalogItem} (h : i ∈ (_parse_wms doc).1) :
    i.name ≠ "" ∧ (i.pfx, i.local_name) = _split_qname i.name := by
  unfold _parse_wms at h
  dsimp only at h
  cases hT : ((match _find_first doc "Capability" with
      | some c => if xmlTruthy c = true then c else doc
      | none => doc).iterAll.find? (fun e : Xml => _local e.tag = "Layer")) with
  | none => rw [hT] at h; cases h
  | some l =>
    rw [hT] at h
    obtain ⟨h₁, h₂, _⟩ := walk_item_props l none [] i h
    exact ⟨h₁, h₂⟩

theorem parse_wfs_item_props {doc : Xml} {i : CatalogItem} (h : i ∈ (_parse_wfs doc).1) :
    i.name ≠ "" ∧ (i.pfx, i.local_name) = _split_qname i.name := by
  unfold _parse_wfs at h
  dsimp only at h
  rw [List.mem_filterMap] at h
  obtain ⟨ft, _, hft⟩ := h
  by_cases hn : pyOrStr (_child_text ft "Name") "" ≠ ""
  · rw [if_pos hn] at hft
    cases hft
    exact ⟨hn, rfl⟩
  · rw [if_neg hn] at hft
    cases hft

theorem parse_wcs_item_props {doc : Xml} {i : CatalogItem} (h : i ∈ (_parse_wcs doc).1) :
    i.name ≠ "" ∧ i.pfx = "" ∧ i.local_name = i.name := by
  unfold _parse_wcs at h
  dsimp only at h
  rw [List.mem_filterMap] at h
  obtain ⟨cov, _, hcov⟩ := h
  by_cases hn : pyOrStr (_child_text cov "CoverageId") "" ≠ ""
  · rw [if_pos hn] at hcov
    cases hcov
    exact ⟨hn, rfl, rfl⟩
  · rw [if_neg hn] at hcov
    cases hcov

/-! ### Claim C6 — WMS title/CRS inheritance is replace, not merge -/

/-- Claim C6: for every node of the WMS layer walk (any node `x` entered
with the nearest-ancestor context of an arbitrary ancestor chain `anc`, and
in particular the parser's top-level call with empty context), the emitted
items are exactly the spec-side per-node emissions: a node with no own
`Title` takes the nearest ancestor's title, and its `crs` list is its own
`CRS`/`SRS` child list when it declares at least one and exactly the
inherited nearest-ancestor list otherwise — replacement, never a merge (see
`specEmit`). -/
theorem wms_inheritance (x : Xml) (anc : List Xml) :
    walk x (nearestTitle anc) (nearestCrs anc) = (layerAnn x anc).filterMap specEmit ∧
    walk x none [] = (layerAnn x []).filterMap specEmit :=
  ⟨walk_eq_spec x anc, walk_eq_spec x []⟩

/-! ### Claim C7 — emitted names are non-empty; nameless nodes still traversed -/

/-- Claim C7: every emitted `CatalogItem` of all three dialects has a
non-empty `name`; and a WMS `Layer` node without a non-empty `Name` emits
nothing itself, yet its child `Layer` nodes are still walked and receive the
nameless node's computed title/CRS as inherited context. -/
theorem emitted_name_nonempty_nameless_traversed :
    (∀ (doc : Xml), ∀ i ∈ (_parse_wms doc).1, i.name ≠ "") ∧
    (∀ (doc : Xml), ∀ i ∈ (_parse_wfs doc).1, i.name ≠ "") ∧
    (∀ (doc : Xml), ∀ i ∈ (_parse_wcs doc).1, i.name ≠ "") ∧
    (∀ (t : String) (a : List (String × String)) (s : String) (cs : XmlList)
      (it : Option String) (ic : List String),
      _child_text (Xml.elem t a s cs) "Name" = none →
      walk (Xml.elem t a s cs) it ic =
        walkChildren cs (pyOr (_child_text (Xml.elem t a s cs) "Title") it)
          (if collect_crs (Xml.elem t a s cs) ≠ [] then collect_crs (Xml.elem t a s cs)
           else ic)) := by
  refine ⟨fun _ i h => (parse_wms_item_props h).1,
    fun _ i h => (parse_wfs_item_props h).1,
    fun _ i h => (parse_wcs_item_props h).1, ?_⟩
  intro t a s cs it ic hn
  rw [walk]
  unfold wmsEmit
  rw [hn, List.nil_append]

/-! ### Claim C9 — qualified-name splitting per dialect -/

/-- Fixture for C9: a WCS coverage whose identifier contains a `:`. -/
def docWcsCex : Xml :=
  .elem "Capabilities" [] "" (.ofList [
    .elem "Contents" [] "" (.ofList [
      .elem "CoverageSummary" [] "" (.ofList [
        .elem "CoverageId" [] "a:b" .nil,
        .elem "Title" [] "T" .nil])])])

def itemWcsCex : CatalogItem :=
  { type := "wcs_coverage", name := "a:b", pfx := "", local_name := "a:b", title := "T",
    abstract := "", queryable := "", crs := [], default_crs := "", bbox_wgs84 := none,
    styles := [] }

/-- Claim C9, counterexample to the claim as stated: the WCS parser emits a
coverage named `"a:b"` with `prefix = ""` and `localName = "a:b"`, not the
`("a", "b")` that splitting the name at its first `:` would give — the WCS
branch never calls `_split_qname`. -/
theorem wcs_qname_not_split_cex :
    (_parse_wcs docWcsCex).1 = [itemWcsCex] ∧
    (itemWcsCex.pfx, itemWcsCex.local_name) ≠ _split_qname itemWcsCex.name ∧
    _split_qname itemWcsCex.name = ("a", "b") := by
  refine ⟨by decide, by decide, by decide⟩

/-- Claim C9, amended: for WMS layers and WFS feature types, `prefix` and
`localName` equal the split of `name` at its first `:` (empty prefix when
there is none); for WCS coverages the code instead always sets
`prefix = ""` and `localName = name` (which agrees with the split only when
the name contains no `:`). -/
theorem qname_split_per_dialect :
    (∀ (doc : Xml), ∀ i ∈ (_parse_wms doc).1, (i.pfx, i.local_name) = _split_qname i.name) ∧
    (∀ (doc : Xml), ∀ i ∈ (_parse_wfs doc).1, (i.pfx, i.local_name) = _split_qname i.name) ∧
    (∀ (doc : Xml), ∀ i ∈ (_parse_wcs doc).1, i.pfx = "" ∧ i.local_name = i.name) :=
  ⟨fun _ _ h => (parse_wms_item_props h).2,
   fun _ _ h => (parse_wfs_item_props h).2,
   fun _ _ h => (parse_wcs_item_props h).2⟩

end OGC



